import Mathlib

/-!
Verification of the design-token and style-property resolution model of the
My_Portfolio repository (a Webflow designer-extension surface).  The vendored
TypeScript declaration files (`styles.d.ts`, `api.d.ts`, `elements.d.ts`,
`builder-element.d.ts`) fix the vocabulary — breakpoints, pseudo states,
variable kinds, method signatures — while the resolution algorithms themselves
are specified (the repository ships no executable resolver).  Definitions below
that embed declaration-level facts cite the `.d.ts` file; definitions of the
resolution core are modelled from the specification and say so in their doc
comments.
-/

/-- The seven responsive breakpoints, exactly the `BreakpointId` union of
`styles.d.ts` (lines 201–208), declared from widest to narrowest:
`xxl, xl, large, main, medium, small, tiny`. -/
inductive Breakpoint where
  | xxl | xl | large | main | medium | small | tiny
deriving DecidableEq, Repr, Fintype

/-- Interaction pseudo-states: the implicit `none` (normal) state plus the
named interaction states the spec enumerates (`hover`, `focus`, `pressed`).
`styles.d.ts` line 198 keys property blocks by an optional `PseudoStateKey`;
the key's value domain is not vendored, so the enumeration follows the spec. -/
inductive Pseudo where
  | none | hover | focus | pressed
deriving DecidableEq, Repr, Fintype

/-- A resolved property value: either an ordinary CSS-like literal or a
reference to a design variable (variables may appear as property values,
`styles.d.ts` `setProperties`: "You can use variables here as well"). -/
inductive PropVal where
  | lit (s : String)
  | varRef (vid : String)
deriving DecidableEq, Repr

/-- An entry stored in a style's property table: an explicit value, or the
explicit "unset" sentinel that blocks outward breakpoint fallback
(spec §4.4 edge case (c)). -/
inductive SetVal where
  | val (v : PropVal)
  | unsetSentinel
deriving DecidableEq, Repr

/-- Modelled from the spec: a Style of the Style Store (spec §3).  The
repository has no executable style store; `styles.d.ts` only declares the
`Style` interface.  A style has a unique name, an optional parent (present
only for combo classes), a property table keyed by
(breakpoint, pseudo-state, property name), and a variable-mode binding table
keyed by (breakpoint, pseudo-state, collection id). -/
structure Style where
  name : String
  parent : Option String
  props : List ((Breakpoint × Pseudo × String) × SetVal)
  modeBindings : List ((Breakpoint × Pseudo × String) × String)
deriving DecidableEq, Repr

/-- Lookup of a style's explicitly stored entry at one exact axis pair
(this is `getProperty`'s "not set at this exact axis pair" notion). -/
def Style.get (s : Style) (b : Breakpoint) (ps : Pseudo) (p : String) :
    Option SetVal :=
  s.props.findSome? (fun e => if e.1 = (b, ps, p) then some e.2 else Option.none)

/-- Modelled from the spec: the breakpoint fallback walk (spec §4.4 axis 1).
Resolving at breakpoint `B` walks outward from `B` toward `main` along the
fixed widest-to-narrowest order `xxl, xl, large, main, medium, small, tiny`
and stops at `main`. -/
def fallbackChain : Breakpoint → List Breakpoint
  | .xxl => [.xxl, .xl, .large, .main]
  | .xl => [.xl, .large, .main]
  | .large => [.large, .main]
  | .main => [.main]
  | .medium => [.medium, .main]
  | .small => [.small, .medium, .main]
  | .tiny => [.tiny, .small, .medium, .main]

/-- First explicitly-set entry of `s` for property `p` at pseudo `ps` along a
breakpoint walk. -/
def firstSet (s : Style) (p : String) (ps : Pseudo) :
    List Breakpoint → Option SetVal
  | [] => Option.none
  | b :: rest =>
    match s.get b ps p with
    | some sv => some sv
    | Option.none => firstSet s p ps rest

/-- Modelled from the spec: axis-1 (breakpoint) resolution for one style
(spec §4.4 step 1).  Takes the first explicitly-set value along the fallback
chain; an explicit unset sentinel blocks further outward fallback and yields
no value. -/
def axis1 (s : Style) (p : String) (b : Breakpoint) (ps : Pseudo) :
    Option PropVal :=
  match firstSet s p ps (fallbackChain b) with
  | some (.val v) => some v
  | some .unsetSentinel => Option.none
  | Option.none => Option.none

/-- Modelled from the spec: axis-2 (pseudo-state) resolution for one style
(spec §4.4 step 2).  A non-`none` pseudo state falls back to the `none` value
at the same breakpoint when no pseudo-specific value is present; there is no
cross-pseudo fallback. -/
def resolveStyleProp (s : Style) (p : String) (b : Breakpoint) (ps : Pseudo) :
    Option PropVal :=
  match ps with
  | .none => axis1 s p b .none
  | _ =>
    match axis1 s p b ps with
    | some v => some v
    | Option.none => axis1 s p b .none

/-- Modelled from the spec: the combo/chain merge (spec §4.4 step 3).
`resolveProperty` resolves each style of the chain independently via axes 1–2
and keeps, per property, the last non-null result in chain order
(lowest-to-highest precedence). -/
def resolveProperty (c : List Style) (p : String) (b : Breakpoint)
    (ps : Pseudo) : Option PropVal :=
  c.foldl
    (fun acc s =>
      match resolveStyleProp s p b ps with
      | some v => some v
      | Option.none => acc)
    Option.none

/-- Modelled from the spec: `resolveProperties` returns the effective property
map of the chain at one axis pair — here represented as the function from
property names to resolved values. -/
def resolveProperties (c : List Style) (b : Breakpoint) (ps : Pseudo) :
    String → Option PropVal :=
  fun p => resolveProperty c p b ps

/-- Axis-2 resolution returns any value that axis-1 already finds at the
requested pseudo state. -/
theorem resolveStyleProp_of_axis1 (s : Style) (p : String) (b : Breakpoint)
    (ps : Pseudo) (v : PropVal) (h : axis1 s p b ps = some v) :
    resolveStyleProp s p b ps = some v := by
  cases ps <;> simp [resolveStyleProp, h]

/-- C1: breakpoint fallback is monotonic over the fixed order
`xxl, xl, large, main, medium, small, tiny`.  If a property is explicitly set
only at `main`, it resolves to that value at every breakpoint; after an
explicit override at another breakpoint `B'`, exactly the breakpoints whose
fallback walk toward `main` passes through `B'` (that is, `B'` and the
breakpoints beyond it on its side of `main`) resolve to the override, while
the breakpoints on the far side of `B'` still resolve to the `main` value. -/
theorem breakpoint_fallback_monotone (s : Style) (p : String) (ps : Pseudo)
    (v w : PropVal) (B' : Breakpoint) (hB' : B' ≠ .main) :
    ((∀ b, s.get b ps p = if b = .main then some (.val v) else Option.none) →
      ∀ B, resolveProperty [s] p B ps = some v) ∧
    ((∀ b, s.get b ps p =
        if b = .main then some (.val v)
        else if b = B' then some (.val w) else Option.none) →
      ∀ B, resolveProperty [s] p B ps =
        some (if B' ∈ fallbackChain B then w else v)) := by
  constructor
  · intro hset B
    have hax : axis1 s p B ps = some v := by
      cases B <;> simp [axis1, firstSet, fallbackChain, hset]
    simp [resolveProperty, resolveStyleProp_of_axis1 s p B ps v hax]
  · intro hset B
    have hax : axis1 s p B ps =
        some (if B' ∈ fallbackChain B then w else v) := by
      cases B' <;> first
        | exact absurd rfl hB'
        | cases B <;> simp [axis1, firstSet, fallbackChain, hset]
    simp [resolveProperty, resolveStyleProp_of_axis1 _ _ _ _ _ hax]

/-- A concrete style used to witness C1: `color` set to `red` at
`(main, none)` and overridden to `blue` at `(small, none)`. -/
def demoStyleC1 : Style :=
  ⟨"s1", Option.none,
    [((.main, .none, "color"), .val (.lit "red")),
     ((.small, .none, "color"), .val (.lit "blue"))], []⟩

/-- Witness for C1 at a concrete style: the `small` override wins at `tiny`
(beyond the override) while `large` (far side of `main`) keeps `red`. -/
theorem breakpoint_fallback_monotone_witness :
    resolveProperty [demoStyleC1] "color" .tiny .none = some (.lit "blue") ∧
    resolveProperty [demoStyleC1] "color" .large .none = some (.lit "red") := by
  have h := (breakpoint_fallback_monotone demoStyleC1 "color" .none
    (.lit "red") (.lit "blue") .small (by decide)).2 (by decide)
  exact ⟨by simpa using h .tiny, by simpa using h .large⟩

/-- The chain merge only depends on the per-style resolutions: folding the
merge step over the chain with pointwise-equal per-style resolvers gives the
same result from any accumulator. -/
theorem mergeFold_congr (f g : Style → Option PropVal) (c : List Style)
    (h : ∀ s ∈ c, f s = g s) (acc : Option PropVal) :
    c.foldl (fun a s => match f s with
      | some v => some v
      | Option.none => a) acc
      = c.foldl (fun a s => match g s with
          | some v => some v
          | Option.none => a) acc := by
  induction c generalizing acc with
  | nil => rfl
  | cons s rest ih =>
    simp only [List.foldl_cons]
    rw [h s (by simp)]
    exact ih (fun t ht => h t (by simp [ht])) _

/-- If every style of the chain resolves to nothing, the merge keeps the
accumulator. -/
theorem mergeFold_none (f : Style → Option PropVal) (c : List Style)
    (h : ∀ s ∈ c, f s = Option.none) (acc : Option PropVal) :
    c.foldl (fun a s => match f s with
      | some v => some v
      | Option.none => a) acc = acc := by
  induction c generalizing acc with
  | nil => rfl
  | cons s rest ih =>
    simp only [List.foldl_cons]
    rw [h s (by simp)]
    exact ih (fun t ht => h t (by simp [ht])) _

/-- A style with no explicitly-set entry for `p` at pseudo `ps` has no axis-1
value at any breakpoint walk. -/
theorem firstSet_of_unset (s : Style) (p : String) (ps : Pseudo)
    (h : ∀ b, s.get b ps p = Option.none) :
    ∀ l : List Breakpoint, firstSet s p ps l = Option.none := by
  intro l
  induction l with
  | nil => rfl
  | cons b rest ih => simp [firstSet, h b, ih]

/-- C2: pseudo-state fallback goes only to the implicit `none` state.  If no
hover-specific value for `p` survives axis-1 resolution at `bp` for any style
of the chain, resolution at `hover` coincides with resolution at `none`; and
a value set only at a different non-`none` pseudo state (here: anything that
is neither `hover` nor `none`, e.g. `focus`) never contributes at `hover`. -/
theorem pseudo_fallback_to_none (c : List Style) (p : String)
    (bp : Breakpoint) :
    ((∀ s ∈ c, axis1 s p bp .hover = Option.none) →
      resolveProperty c p bp .hover = resolveProperty c p bp .none) ∧
    ((∀ s ∈ c, (∀ b, s.get b .hover p = Option.none) ∧
        (∀ b, s.get b .none p = Option.none)) →
      resolveProperty c p bp .hover = Option.none) := by
  constructor
  · intro h
    unfold resolveProperty
    exact mergeFold_congr _ _ c
      (fun s hs => by simp [resolveStyleProp, h s hs]) Option.none
  · intro h
    unfold resolveProperty
    exact mergeFold_none _ c
      (fun s hs => by
        have h1 := firstSet_of_unset s p .hover (h s hs).1
        have h2 := firstSet_of_unset s p .none (h s hs).2
        simp [resolveStyleProp, axis1, h1, h2]) Option.none

/-- A concrete style used to witness C2: `color` is set only at the `focus`
pseudo state. -/
def demoStyleFocus : Style :=
  ⟨"s2", Option.none, [((.main, .focus, "color"), .val (.lit "green"))], []⟩

/-- Witness for C2: with no hover-specific `color`, `demoStyleC1` resolves the
same at `hover` as at `none`; and a `focus`-only value never shows up at
`hover`. -/
theorem pseudo_fallback_to_none_witness :
    resolveProperty [demoStyleC1] "color" .main .hover
      = resolveProperty [demoStyleC1] "color" .main .none ∧
    resolveProperty [demoStyleFocus] "color" .main .hover = Option.none := by
  constructor
  · exact (pseudo_fallback_to_none [demoStyleC1] "color" .main).1 (by decide)
  · exact (pseudo_fallback_to_none [demoStyleFocus] "color" .main).2 (by decide)

/-- The chain merge evaluated on a chain extended by one style: the appended
style wins when it resolves, otherwise the prefix decides. -/
theorem resolveProperty_append_singleton (c : List Style) (s : Style)
    (p : String) (b : Breakpoint) (ps : Pseudo) :
    resolveProperty (c ++ [s]) p b ps =
      match resolveStyleProp s p b ps with
      | some v => some v
      | Option.none => resolveProperty c p b ps := by
  unfold resolveProperty
  rw [List.foldl_append]
  rfl

/-- Decomposing an equality of two lists that both end in a singleton. -/
theorem append_singleton_inj {A : Type} {c pre : List A} {s t : A}
    (h : c ++ [s] = pre ++ [t]) : c = pre ∧ s = t := by
  have hlen : c.length = pre.length := by
    have := congrArg List.length h
    simpa using this
  obtain ⟨h1, h2⟩ := List.append_inj h hlen
  exact ⟨h1, by simpa using h2⟩

/-- The merged value of a chain is `some v` exactly when some style of the
chain resolves to `v` and every later style resolves to nothing. -/
theorem resolveProperty_eq_some_iff (c : List Style) (p : String)
    (b : Breakpoint) (ps : Pseudo) (v : PropVal) :
    resolveProperty c p b ps = some v ↔
      ∃ pre s post, c = pre ++ s :: post ∧
        resolveStyleProp s p b ps = some v ∧
        ∀ t ∈ post, resolveStyleProp t p b ps = Option.none := by
  induction c using List.reverseRecOn with
  | nil =>
    simp only [resolveProperty, List.foldl_nil]
    constructor
    · intro h; exact absurd h (by simp)
    · rintro ⟨pre, s, post, habs, -, -⟩
      exact absurd habs.symm (by simp)
  | append_singleton c s ih =>
    rw [resolveProperty_append_singleton]
    cases hs : resolveStyleProp s p b ps with
    | some w =>
      constructor
      · intro hv
        exact ⟨c, s, [], rfl, hs.trans hv, by simp⟩
      · rintro ⟨pre, s', post, hdec, hf, hpost⟩
        rcases post.eq_nil_or_concat with rfl | ⟨post', t, rfl⟩
        · obtain ⟨-, rfl⟩ := append_singleton_inj hdec
          exact hs.symm.trans hf
        · rw [List.concat_eq_append] at hdec hpost
          rw [show pre ++ s' :: (post' ++ [t]) = (pre ++ s' :: post') ++ [t]
            by simp] at hdec
          obtain ⟨-, rfl⟩ := append_singleton_inj hdec
          have := hpost s (by simp)
          rw [this] at hs
          exact absurd hs (by simp)
    | none =>
      rw [ih]
      constructor
      · rintro ⟨pre, s', post, rfl, hf, hpost⟩
        refine ⟨pre, s', post ++ [s], by simp, hf, ?_⟩
        intro t ht
        rcases List.mem_append.mp ht with h | h
        · exact hpost t h
        · rw [List.mem_singleton.mp h]; exact hs
      · rintro ⟨pre, s', post, hdec, hf, hpost⟩
        rcases post.eq_nil_or_concat with rfl | ⟨post', t, rfl⟩
        · obtain ⟨-, rfl⟩ := append_singleton_inj hdec
          rw [hf] at hs
          exact absurd hs (by simp)
        · rw [List.concat_eq_append] at hdec hpost
          rw [show pre ++ s' :: (post' ++ [t]) = (pre ++ s' :: post') ++ [t]
            by simp] at hdec
          obtain ⟨rfl, rfl⟩ := append_singleton_inj hdec
          exact ⟨pre, s', post', rfl, hf,
            fun u hu => hpost u (by simp [hu])⟩

/-- Parent style `A` of the C3 scenario: `color = red` at `(main, none)`. -/
def styleA : Style :=
  ⟨"A", Option.none, [((.main, .none, "color"), .val (.lit "red"))], []⟩

/-- Combo child `B` (parent `A`) of the C3 scenario, with no own `color`. -/
def styleB : Style := ⟨"B", some "A", [], []⟩

/-- Combo child `B` of the C3 scenario after overriding `color = blue`. -/
def styleBBlue : Style :=
  ⟨"B", some "A", [((.main, .none, "color"), .val (.lit "blue"))], []⟩

/-- C3: the combo/chain merge is per-property last-writer-wins: the merged
value is `some v` exactly when some style of the ordered chain resolves to
`v` via the two axes and every later style resolves to nothing.  In
particular, with parent `A` (`color=red` at `(main, none)`) and combo child
`B` with no own color, `[A, B]` resolves `color` to `red`, and once `B` sets
`color=blue` the merge returns `blue`. -/
theorem combo_merge_last_writer_wins (c : List Style) (p : String)
    (b : Breakpoint) (ps : Pseudo) (v : PropVal) :
    (resolveProperty c p b ps = some v ↔
      ∃ pre s post, c = pre ++ s :: post ∧
        resolveStyleProp s p b ps = some v ∧
        ∀ t ∈ post, resolveStyleProp t p b ps = Option.none) ∧
    resolveProperties [styleA, styleB] .main .none "color"
      = some (.lit "red") ∧
    resolveProperties [styleA, styleBBlue] .main .none "color"
      = some (.lit "blue") := by
  exact ⟨resolveProperty_eq_some_iff c p b ps v, by decide, by decide⟩

/-- The typed error vocabulary of the core (spec §7): all failures are
reported synchronously as one of these typed signals. -/
inductive StoreError where
  | typeMismatch | aliasCycle | nestedComboNotSupported
  | unknownProperty | invalidAxisValue | notEmptyOrForced | notFound
deriving DecidableEq, Repr

/-- The five variable kinds of the vendored surface: `styles.d.ts` declares
`ColorVariable`, `SizeVariable`, `NumberVariable`, `PercentageVariable` and
`FontFamilyVariable`. -/
inductive VarType where
  | color | size | number | percentage | fontFamily
deriving DecidableEq, Repr

/-- A concrete typed variable value, following the value vocabulary of
`styles.d.ts` (`ColorValue = string`, `SizeValue = {value, unit}`,
`NumberValue`/`PercentageValue = number`, `FontFamilyValue = string`).
Numeric payloads are opaque to resolution, so they are carried as `Int`. -/
inductive ConcreteVal where
  | color (s : String)
  | size (value : Int) (unit : String)
  | number (n : Int)
  | percentage (n : Int)
  | fontFamily (s : String)
deriving DecidableEq, Repr

/-- The variable kind a concrete value belongs to. -/
def ConcreteVal.vtype : ConcreteVal → VarType
  | .color _ => .color
  | .size _ _ => .size
  | .number _ => .number
  | .percentage _ => .percentage
  | .fontFamily _ => .fontFamily

/-- What a variable stores for one mode: a concrete value, an alias to
another variable (`VariableReference`), or the `CustomValue` escape-hatch
token of `styles.d.ts` lines 877–880 (never aliasable further). -/
inductive VarEntry where
  | val (c : ConcreteVal)
  | ref (target : String)
  | custom (s : String)
deriving DecidableEq, Repr

/-- Modelled from the spec: a Variable of the Variable Store (spec §3).  The
repository ships no executable variable store; the `.d.ts` files only declare
the variable interfaces.  A variable has an id, a fixed type, a
value-or-alias per mode (an association list keyed by mode id), and the
default mode of its owning collection (denormalized onto the variable). -/
structure Variable where
  id : String
  vtype : VarType
  values : List (String × VarEntry)
  defaultMode : String
deriving DecidableEq, Repr

/-- The entry a variable stores for exactly mode `m` (no default fallback). -/
def Variable.modeValue (v : Variable) (m : String) : Option VarEntry :=
  v.values.findSome? (fun e => if e.1 = m then some e.2 else Option.none)

/-- Modelled from the spec: `unset` for a non-default mode means "inherit the
default mode's value" (spec §3), so the raw per-mode read falls back to the
default mode when `m` is unset. -/
def Variable.getRaw (v : Variable) (m : String) : Option VarEntry :=
  match v.modeValue m with
  | some e => some e
  | Option.none => v.modeValue v.defaultMode

/-- Modelled from the spec: the Variable Store is the collection of all
variables, looked up by id. -/
structure VarStore where
  vars : List Variable
deriving DecidableEq, Repr

/-- Id lookup in the variable store. -/
def VarStore.find (st : VarStore) (vid : String) : Option Variable :=
  st.vars.find? (fun v => v.id == vid)

/-- The finite set of variable ids held by the store. -/
def VarStore.idSet (st : VarStore) : Finset String :=
  (st.vars.map Variable.id).toFinset

/-- What alias resolution can produce: a concrete typed value or the
`CustomValue` token returned verbatim (spec §4.2). -/
inductive Resolved where
  | concrete (c : ConcreteVal)
  | custom (s : String)
deriving DecidableEq, Repr

/-- A successful store lookup puts the id in the store's id set. -/
theorem VarStore.mem_idSet_of_find (st : VarStore) (vid : String)
    (v : Variable) (h : st.find vid = some v) : vid ∈ st.idSet := by
  rw [VarStore.find] at h
  have hmem : v ∈ st.vars := List.mem_of_find?_eq_some h
  have hid : v.id = vid := by
    have hpred := List.find?_some h
    simpa using hpred
  simp only [VarStore.idSet, List.mem_toFinset, List.mem_map]
  exact ⟨v, hmem, hid⟩

/-- Modelled from the spec: the Alias Resolver's walk (spec §4.2).  Starting
from `(variable, mode)` it repeatedly follows alias references, reading each
target's value for the same mode with default-mode fallback, maintains a
visited set of variable ids, fails with `AliasCycle` when an id reappears,
and stops verbatim at a `CustomValue`. -/
def resolveAux (st : VarStore) (m : String) (visited : List String)
    (vid : String) : Except StoreError Resolved :=
  if h : vid ∈ visited then .error .aliasCycle
  else
    match hf : st.find vid with
    | Option.none => .error .notFound
    | some v =>
      match v.getRaw m with
      | Option.none => .error .notFound
      | some (.val c) => .ok (.concrete c)
      | some (.custom s) => .ok (.custom s)
      | some (.ref tgt) => resolveAux st m (vid :: visited) tgt
termination_by (st.idSet \ visited.toFinset).card
decreasing_by
  apply Finset.card_lt_card
  have hvid : vid ∈ st.idSet := VarStore.mem_idSet_of_find st vid v hf
  constructor
  · intro x hx
    rw [Finset.mem_sdiff] at hx ⊢
    refine ⟨hx.1, fun hc => hx.2 ?_⟩
    rw [List.toFinset_cons]
    exact Finset.mem_insert_of_mem hc
  · intro hsub
    have : vid ∈ st.idSet \ ((vid :: visited).toFinset) := by
      apply hsub
      rw [Finset.mem_sdiff, List.mem_toFinset]
      exact ⟨hvid, h⟩
    rw [Finset.mem_sdiff, List.toFinset_cons] at this
    exact this.2 (Finset.mem_insert_self vid _)

/-- Modelled from the spec: `resolve(variable, mode)` (spec §4.2), entered
with an empty visited set. -/
def resolve (st : VarStore) (vid : String) (m : String) :
    Except StoreError Resolved :=
  resolveAux st m [] vid

/-- C5: for a variable holding no alias, `resolve` returns the value stored
for the requested mode, or — when the requested mode is unset — the value
stored for the collection's default mode. -/
theorem resolve_no_alias (st : VarStore) (vid : String) (v : Variable)
    (m : String) (hfind : st.find vid = some v) :
    (∀ c : ConcreteVal, v.modeValue m = some (.val c) →
      resolve st vid m = .ok (.concrete c)) ∧
    (v.modeValue m = Option.none →
      ∀ c : ConcreteVal, v.modeValue v.defaultMode = some (.val c) →
        resolve st vid m = .ok (.concrete c)) := by
  constructor
  · intro c hm
    unfold resolve
    rw [resolveAux]
    simp only [List.not_mem_nil, dite_false]
    split
    next hf => rw [hfind] at hf; exact absurd hf (by simp)
    next w hf =>
      rw [hfind] at hf
      injection hf with hw
      subst hw
      simp [Variable.getRaw, hm]
  · intro hnone c hdef
    unfold resolve
    rw [resolveAux]
    simp only [List.not_mem_nil, dite_false]
    split
    next hf => rw [hfind] at hf; exact absurd hf (by simp)
    next w hf =>
      rw [hfind] at hf
      injection hf with hw
      subst hw
      simp [Variable.getRaw, hnone, hdef]

/-- The variable `bg` of the demo store: a Color variable with default mode
`base` (`#fff`) and a `dark` mode value (`#000`). -/
def demoBg : Variable :=
  ⟨"bg", .color,
    [("base", .val (.color "#fff")), ("dark", .val (.color "#000"))], "base"⟩

/-- A demo variable store: `bg` plus an alias `accent` pointing at `bg`. -/
def demoVarStore : VarStore :=
  ⟨[demoBg, ⟨"accent", .color, [("base", .ref "bg")], "base"⟩]⟩

/-- Witness for C5: `bg` resolves to its `dark` value at mode `dark` and to
its default-mode value at an unset mode. -/
theorem resolve_no_alias_witness :
    resolve demoVarStore "bg" "dark" = .ok (.concrete (.color "#000")) ∧
    resolve demoVarStore "bg" "other" = .ok (.concrete (.color "#fff")) := by
  constructor
  · exact (resolve_no_alias demoVarStore "bg" demoBg "dark" (by rfl)).1
      (.color "#000") (by rfl)
  · exact (resolve_no_alias demoVarStore "bg" demoBg "other" (by rfl)).2
      (by rfl) (.color "#fff") (by rfl)

/-- One step of the alias chain: the variable id that `vid`'s entry at mode
`m` (with default-mode fallback) references, if the entry is an alias. -/
def nextVar (st : VarStore) (m : String) (vid : String) : Option String :=
  match st.find vid with
  | Option.none => Option.none
  | some v =>
    match v.getRaw m with
    | some (.ref tgt) => some tgt
    | _ => Option.none

/-- The transitive alias chain starting at `(vid, m)`: position `n` of the
walk, `none` once the chain has stopped (non-alias entry or dangling id). -/
def orbit (st : VarStore) (m : String) (vid : String) : Nat → Option String
  | 0 => some vid
  | n + 1 =>
    match orbit st m vid n with
    | Option.none => Option.none
    | some x => nextVar st m x

/-- The ids visited by the alias walk before position `n`. -/
def orbitVisited (st : VarStore) (m : String) (vid : String) :
    Nat → List String
  | 0 => []
  | n + 1 =>
    match orbit st m vid n with
    | Option.none => orbitVisited st m vid n
    | some x => x :: orbitVisited st m vid n

/-- An entry is acceptable in a well-formed store when it exists and any
alias target it holds is present in the store. -/
def entryOk (st : VarStore) (e : Option VarEntry) : Bool :=
  match e with
  | some (.ref tgt) => (st.find tgt).isSome
  | some _ => true
  | Option.none => false

/-- A store is well-formed at mode `m` when every variable has an entry at
`m` (after default-mode fallback) and every alias target exists. -/
def wellFormedAt (st : VarStore) (m : String) : Bool :=
  st.vars.all (fun v => entryOk st (v.getRaw m))

/-- Once the alias chain stops it stays stopped. -/
theorem orbit_none_succ (st : VarStore) (m vid : String) (n : Nat)
    (h : orbit st m vid n = Option.none) :
    orbit st m vid (n + 1) = Option.none := by
  rw [orbit, h]

/-- Once the alias chain stops it stays stopped, at any later position. -/
theorem orbit_none_mono (st : VarStore) (m vid : String) (k l : Nat)
    (hkl : k ≤ l) (h : orbit st m vid k = Option.none) :
    orbit st m vid l = Option.none := by
  obtain ⟨d, rfl⟩ := Nat.exists_eq_add_of_le hkl
  induction d with
  | zero => exact h
  | succ d ih =>
    exact orbit_none_succ st m vid (k + d) (ih (Nat.le_add_right k d))

/-- Membership in the visited list is exactly occurrence strictly before the
current position of the walk. -/
theorem mem_orbitVisited (st : VarStore) (m vid : String) (n : Nat)
    (x : String) :
    x ∈ orbitVisited st m vid n ↔ ∃ k < n, orbit st m vid k = some x := by
  induction n with
  | zero =>
    simp [orbitVisited]
  | succ n ih =>
    rw [orbitVisited]
    cases horb : orbit st m vid n with
    | none =>
      rw [ih]
      constructor
      · rintro ⟨k, hk, hx⟩
        exact ⟨k, Nat.lt_succ_of_lt hk, hx⟩
      · rintro ⟨k, hk, hx⟩
        rcases Nat.lt_succ_iff_lt_or_eq.mp hk with hk' | rfl
        · exact ⟨k, hk', hx⟩
        · rw [horb] at hx; exact absurd hx (by simp)
    | some y =>
      simp only [List.mem_cons, ih]
      constructor
      · rintro (rfl | ⟨k, hk, hx⟩)
        · exact ⟨n, Nat.lt_succ_self n, horb⟩
        · exact ⟨k, Nat.lt_succ_of_lt hk, hx⟩
      · rintro ⟨k, hk, hx⟩
        rcases Nat.lt_succ_iff_lt_or_eq.mp hk with hk' | rfl
        · exact Or.inr ⟨k, hk', hx⟩
        · rw [horb] at hx
          injection hx with hx
          exact Or.inl hx.symm

/-- Characterization of a successful alias step. -/
theorem nextVar_eq_some_iff (st : VarStore) (m y x : String) :
    nextVar st m y = some x ↔
      ∃ w, st.find y = some w ∧ w.getRaw m = some (.ref x) := by
  unfold nextVar
  cases hf : st.find y with
  | none => simp
  | some w =>
    cases hg : w.getRaw m with
    | none => simp [hg]
    | some e => cases e <;> simp_all

/-- In a well-formed store every id the alias chain reaches is present. -/
theorem orbit_find_isSome (st : VarStore) (m vid : String)
    (hwf : wellFormedAt st m = true) (hvid : (st.find vid).isSome = true) :
    ∀ n x, orbit st m vid n = some x → (st.find x).isSome = true := by
  intro n
  induction n with
  | zero =>
    intro x hx
    rw [orbit] at hx
    injection hx with hx
    subst hx
    exact hvid
  | succ n ih =>
    intro x hx
    rw [orbit] at hx
    cases horb : orbit st m vid n with
    | none => rw [horb] at hx; exact absurd hx (by simp)
    | some y =>
      rw [horb] at hx
      obtain ⟨w, hfw, hgw⟩ := (nextVar_eq_some_iff st m y x).mp hx
      have hmem : w ∈ st.vars := by
        rw [VarStore.find] at hfw
        exact List.mem_of_find?_eq_some hfw
      have hok := List.all_eq_true.mp hwf w hmem
      rw [hgw] at hok
      simpa [entryOk] using hok

/-- The resolver walk follows the alias chain: as long as no id has repeated
strictly before position `n`, resolving from the start equals resolving from
position `n` with the ids before `n` as the visited set. -/
theorem resolveAux_walk (st : VarStore) (m vid : String) :
    ∀ n x, orbit st m vid n = some x →
      (∀ i j, i < j → j < n → orbit st m vid i ≠ orbit st m vid j) →
      resolveAux st m [] vid
        = resolveAux st m (orbitVisited st m vid n) x := by
  intro n
  induction n with
  | zero =>
    intro x hx _
    rw [orbit] at hx
    injection hx with hx
    subst hx
    rfl
  | succ n ih =>
    intro x hx hdist
    rw [orbit] at hx
    cases horb : orbit st m vid n with
    | none => rw [horb] at hx; exact absurd hx (by simp)
    | some y =>
      rw [horb] at hx
      obtain ⟨w, hfw, hgw⟩ := (nextVar_eq_some_iff st m y x).mp hx
      have hdist' : ∀ i j, i < j → j < n →
          orbit st m vid i ≠ orbit st m vid j :=
        fun i j hij hj => hdist i j hij (Nat.lt_succ_of_lt hj)
      have heq := ih y horb hdist'
      have hnotmem : y ∉ orbitVisited st m vid n := by
        rw [mem_orbitVisited]
        rintro ⟨k, hk, hky⟩
        exact hdist k n hk (Nat.lt_succ_self n) (hky.trans horb.symm)
      have hstep : resolveAux st m (orbitVisited st m vid n) y
          = resolveAux st m (y :: orbitVisited st m vid n) x := by
        conv_lhs => rw [resolveAux]
        simp only [dif_neg hnotmem]
        split
        next hf => rw [hfw] at hf; exact absurd hf (by simp)
        next w' hf =>
          rw [hfw] at hf
          injection hf with hw
          subst hw
          simp [hgw]
      rw [heq, hstep]
      simp only [orbitVisited, horb]

/-- C4: alias resolution follows the transitive alias chain.  If some
variable id reappears along the chain, `resolve` fails with `AliasCycle`; if
no id repeats (it suffices to check positions up to the store size), in a
well-formed store `resolve` terminates with a concrete typed value or a
`CustomValue`; and a `CustomValue` entry is returned verbatim, never followed
further. -/
theorem resolve_alias_chain (st : VarStore) (vid m : String)
    (hwf : wellFormedAt st m = true)
    (hvid : (st.find vid).isSome = true) :
    ((∃ i j, i < j ∧ orbit st m vid i ≠ Option.none ∧
        orbit st m vid i = orbit st m vid j) →
      resolve st vid m = .error .aliasCycle) ∧
    ((∀ i j, i < j → j ≤ st.vars.length →
        orbit st m vid i = orbit st m vid j →
        orbit st m vid i = Option.none) →
      ∃ r, resolve st vid m = .ok r) ∧
    (∀ v s, st.find vid = some v → v.getRaw m = some (.custom s) →
      resolve st vid m = .ok (.custom s)) := by
  classical
  refine ⟨?_, ?_, ?_⟩
  · rintro ⟨i, j, hij, hne, heq⟩
    have hP : ∃ n, ∃ k, k < n ∧ orbit st m vid k = orbit st m vid n ∧
        orbit st m vid k ≠ Option.none := ⟨j, i, hij, heq, hne⟩
    obtain ⟨k0, hk0, hk0eq, hk0ne⟩ := Nat.find_spec hP
    cases hx : orbit st m vid (Nat.find hP) with
    | none => exact absurd (hk0eq.trans hx) hk0ne
    | some x =>
      have hdist : ∀ a b, a < b → b < Nat.find hP →
          orbit st m vid a ≠ orbit st m vid b := by
        intro a b hab hb habs
        by_cases hna : orbit st m vid a = Option.none
        · have hnone : orbit st m vid (Nat.find hP) = Option.none :=
            orbit_none_mono st m vid a _ (le_of_lt (hab.trans hb)) hna
          rw [hx] at hnone
          exact absurd hnone (by simp)
        · exact absurd ⟨a, hab, habs, hna⟩ (Nat.find_min hP hb)
      have hwalk := resolveAux_walk st m vid (Nat.find hP) x hx hdist
      unfold resolve
      rw [hwalk]
      have hmem : x ∈ orbitVisited st m vid (Nat.find hP) := by
        rw [mem_orbitVisited]
        exact ⟨k0, hk0, hk0eq.trans hx⟩
      rw [resolveAux]
      simp only [dif_pos hmem]
  · intro hnr
    have hstop : ∃ n, n ≤ st.vars.length ∧
        orbit st m vid n = Option.none := by
      by_contra hcon
      push_neg at hcon
      have hsome : ∀ k : Fin (st.vars.length + 1),
          (orbit st m vid ↑k).isSome := by
        intro k
        have hk := hcon ↑k (Nat.lt_succ_iff.mp k.isLt)
        rw [Option.isSome_iff_ne_none]
        exact hk
      have hmaps : ∀ k : Fin (st.vars.length + 1),
          (orbit st m vid ↑k).get (hsome k) ∈ st.idSet := by
        intro k
        have horb : orbit st m vid ↑k
            = some ((orbit st m vid ↑k).get (hsome k)) :=
          (Option.some_get (hsome k)).symm
        have hfk := orbit_find_isSome st m vid hwf hvid ↑k _ horb
        obtain ⟨w, hw⟩ := Option.isSome_iff_exists.mp hfk
        exact VarStore.mem_idSet_of_find st _ w hw
      have hcardle : st.idSet.card ≤ st.vars.length := by
        calc st.idSet.card ≤ (st.vars.map Variable.id).length :=
              List.toFinset_card_le _
          _ = st.vars.length := List.length_map _ _
      have hc : st.idSet.card
          < (Finset.univ : Finset (Fin (st.vars.length + 1))).card := by
        simpa using Nat.lt_succ_of_le hcardle
      obtain ⟨a, -, b, -, hab, hfeq⟩ :=
        Finset.exists_ne_map_eq_of_card_lt_of_maps_to hc
          (fun k _ => hmaps k)
      have horbeq : orbit st m vid ↑a = orbit st m vid ↑b := by
        rw [← Option.some_get (hsome a), ← Option.some_get (hsome b), hfeq]
      have hvne : (↑a : Nat) ≠ ↑b := fun h => hab (Fin.ext h)
      rcases Nat.lt_or_ge ↑a ↑b with hlt | hge
      · have := hnr ↑a ↑b hlt (Nat.lt_succ_iff.mp b.isLt) horbeq
        exact (hcon ↑a (Nat.lt_succ_iff.mp a.isLt)) this
      · have hlt' : (↑b : Nat) < ↑a := lt_of_le_of_ne hge hvne.symm
        have := hnr ↑b ↑a hlt' (Nat.lt_succ_iff.mp a.isLt) horbeq.symm
        exact (hcon ↑b (Nat.lt_succ_iff.mp b.isLt)) this
    obtain ⟨nstop, hnstopN, hnstop⟩ := hstop
    have hPstop : ∃ n, orbit st m vid n = Option.none := ⟨nstop, hnstop⟩
    obtain ⟨n0, hn0spec, hn0min, hn0N⟩ :
        ∃ n0, orbit st m vid n0 = Option.none ∧
          (∀ k, k < n0 → orbit st m vid k ≠ Option.none) ∧
          n0 ≤ st.vars.length :=
      ⟨Nat.find hPstop, Nat.find_spec hPstop,
        fun k hk => Nat.find_min hPstop hk,
        le_trans (Nat.find_min' hPstop hnstop) hnstopN⟩
    cases n0 with
    | zero => simp [orbit] at hn0spec
    | succ n1 =>
      obtain ⟨y, hy⟩ : ∃ y, orbit st m vid n1 = some y := by
        cases hOY : orbit st m vid n1 with
        | none => exact absurd hOY (hn0min n1 (Nat.lt_succ_self n1))
        | some y => exact ⟨y, rfl⟩
      have hdist : ∀ a b, a < b → b < n1 →
          orbit st m vid a ≠ orbit st m vid b := by
        intro a b hab hb habs
        have hbN : b ≤ st.vars.length := by omega
        have := hnr a b hab hbN habs
        exact (hn0min a (by omega)) this
      have hwalk := resolveAux_walk st m vid n1 y hy hdist
      unfold resolve
      rw [hwalk]
      have hynot : y ∉ orbitVisited st m vid n1 := by
        rw [mem_orbitVisited]
        rintro ⟨k, hk, hky⟩
        have hko : orbit st m vid k = orbit st m vid n1 := hky.trans hy.symm
        have hkN : n1 ≤ st.vars.length := by omega
        have := hnr k n1 hk hkN hko
        exact (hn0min k (by omega)) this
      have hfy : (st.find y).isSome :=
        orbit_find_isSome st m vid hwf hvid n1 y hy
      obtain ⟨w, hw⟩ := Option.isSome_iff_exists.mp hfy
      have hmemw : w ∈ st.vars := by
        rw [VarStore.find] at hw
        exact List.mem_of_find?_eq_some hw
      have hok := List.all_eq_true.mp hwf w hmemw
      cases hg : w.getRaw m with
      | none => rw [hg] at hok; simp [entryOk] at hok
      | some e =>
        cases e with
        | ref tgt =>
          have hnext : nextVar st m y = some tgt :=
            (nextVar_eq_some_iff st m y tgt).mpr ⟨w, hw, hg⟩
          have horb1 : orbit st m vid (n1 + 1) = some tgt := by
            rw [orbit, hy]
            exact hnext
          rw [horb1] at hn0spec
          exact absurd hn0spec (by simp)
        | val c =>
          refine ⟨.concrete c, ?_⟩
          rw [resolveAux]
          simp only [dif_neg hynot]
          split
          next hf => rw [hw] at hf; exact absurd hf (by simp)
          next w' hf =>
            rw [hw] at hf
            injection hf with hweq
            subst hweq
            simp [hg]
        | custom s =>
          refine ⟨.custom s, ?_⟩
          rw [resolveAux]
          simp only [dif_neg hynot]
          split
          next hf => rw [hw] at hf; exact absurd hf (by simp)
          next w' hf =>
            rw [hw] at hf
            injection hf with hweq
            subst hweq
            simp [hg]
  · intro v s hfind hcust
    unfold resolve
    rw [resolveAux]
    simp only [List.not_mem_nil, dite_false]
    split
    next hf => rw [hfind] at hf; exact absurd hf (by simp)
    next w hf =>
      rw [hfind] at hf
      injection hf with hw
      subst hw
      simp [hcust]

/-- A store with an alias cycle: `A` references `B`, `B` references `A`. -/
def cycStore : VarStore :=
  ⟨[⟨"A", .color, [("base", .ref "B")], "base"⟩,
    ⟨"B", .color, [("base", .ref "A")], "base"⟩]⟩

/-- A store whose variable `raw` holds a `CustomValue` token. -/
def customStore : VarStore :=
  ⟨[⟨"raw", .color, [("base", .custom "oklch(0.5 0.1 200)")], "base"⟩]⟩

/-- Witness for C4: the two-variable cycle fails with `AliasCycle`, the
acyclic `accent → bg` chain resolves successfully, and a `CustomValue` is
returned verbatim. -/
theorem resolve_alias_chain_witness :
    resolve cycStore "A" "base" = .error .aliasCycle ∧
    resolve demoVarStore "accent" "base" ≠ .error .aliasCycle ∧
    resolve customStore "raw" "base"
      = .ok (.custom "oklch(0.5 0.1 200)") := by
  refine ⟨?_, ?_, ?_⟩
  · exact (resolve_alias_chain cycStore "A" "base" (by decide) (by decide)).1
      ⟨0, 2, by decide, by decide, by decide⟩
  · have hnr : ∀ i j, i < j → j ≤ demoVarStore.vars.length →
        orbit demoVarStore "base" "accent" i
          = orbit demoVarStore "base" "accent" j →
        orbit demoVarStore "base" "accent" i = Option.none := by
      intro i j hij hj heq
      have hj2 : j ≤ 2 := hj
      interval_cases j
      · omega
      · interval_cases i
        · exact absurd heq (by decide)
      · interval_cases i
        · exact absurd heq (by decide)
        · exact absurd heq (by decide)
    obtain ⟨r, hr⟩ := (resolve_alias_chain demoVarStore "accent" "base"
      (by decide) (by decide)).2.1 hnr
    rw [hr]
    simp
  · exact (resolve_alias_chain customStore "raw" "base"
      (by decide) (by decide)).2.2
      ⟨"raw", .color, [("base", .custom "oklch(0.5 0.1 200)")], "base"⟩
      "oklch(0.5 0.1 200)" (by rfl) (by rfl)

/-- Modelled from the spec: a VariableCollection (spec §3) — id, named modes,
and owned variables.  The repository only declares the `VariableCollection`
interface (`styles.d.ts` line 717). -/
structure Collection where
  id : String
  modes : List String
  vars : List Variable
deriving DecidableEq, Repr

/-- Modelled from the spec: the project-wide state — the Variable Store
(collections) and the Style Store (styles). -/
structure ProjectState where
  collections : List Collection
  styles : List Style
deriving DecidableEq, Repr

/-- Name lookup in a list of styles. -/
def lookupStyle (styles : List Style) (name : String) : Option Style :=
  styles.find? (fun s => s.name == name)

/-- Collection lookup by id. -/
def ProjectState.findCollection (st : ProjectState) (cid : String) :
    Option Collection :=
  st.collections.find? (fun c => c.id == cid)

/-- Style lookup by name. -/
def ProjectState.findStyle (st : ProjectState) (name : String) :
    Option Style :=
  lookupStyle st.styles name

/-- Variable lookup across all collections. -/
def ProjectState.findVariable (st : ProjectState) (vid : String) :
    Option Variable :=
  st.collections.findSome? (fun c => c.vars.find? (fun v => v.id == vid))

/-- Whether a style's property table references the variable `vid`. -/
def styleUsesVar (s : Style) (vid : String) : Bool :=
  s.props.any (fun e =>
    match e.2 with
    | .val (.varRef w) => w == vid
    | _ => false)

/-- Modelled from the spec: a collection "still has dependents" when some
style still references one of its variables (spec §8 scenario). -/
def collectionHasDependents (st : ProjectState) (cid : String) : Bool :=
  match st.findCollection cid with
  | Option.none => false
  | some c => st.styles.any (fun s => c.vars.any (fun v => styleUsesVar s v.id))

/-- Modelled from the spec: `removeCollection` (spec §4.1) — fails with
`NotFound` on a stale id, with `NotEmptyOrForced` when dependents remain and
cascading removal was not explicitly confirmed, and otherwise removes the
collection (cascading to its owned contents).  The operation returns the
post-call state together with an optional typed error; every error branch
returns the pre-call state. -/
def removeCollection (st : ProjectState) (cid : String) (force : Bool) :
    ProjectState × Option StoreError :=
  match st.findCollection cid with
  | Option.none => (st, some .notFound)
  | some _ =>
    if !force && collectionHasDependents st cid then
      (st, some .notEmptyOrForced)
    else
      (⟨st.collections.filter (fun c => !(c.id == cid)), st.styles⟩,
        Option.none)

/-- Modelled from the spec: `create(name, parent?)` of the Style Store
(spec §4.3, `createStyle` in `api.d.ts` lines 210–225).  Creating a combo
class is only valid against a parent with no parent of its own; a combo
parent is rejected with `NestedComboNotSupported`. -/
def createStyle (st : ProjectState) (name : String)
    (parent : Option String) : ProjectState × Option StoreError :=
  match parent with
  | Option.none =>
    (⟨st.collections, st.styles ++ [⟨name, Option.none, [], []⟩]⟩,
      Option.none)
  | some pid =>
    match st.findStyle pid with
    | Option.none => (st, some .notFound)
    | some p =>
      if p.parent.isSome then (st, some .nestedComboNotSupported)
      else
        (⟨st.collections, st.styles ++ [⟨name, some pid, [], []⟩]⟩,
          Option.none)

/-- Modelled from the spec: a representative closed property vocabulary.
The full `StyleProperty` union lives in `styles-generated.d.ts`, which is not
vendored in the repository; the spec only requires that the set is closed and
validated against (spec §4.3, §6). -/
def knownProps : List String :=
  ["color", "background-color", "font-size", "font-family", "width",
   "height", "display", "opacity", "margin-top", "padding-top"]

/-- Modelled from the spec: `setProperty(style, prop, value, axis)`
(spec §4.3).  A property name outside the known property set fails with
`UnknownProperty`; a stale style name fails with `NotFound`; otherwise the
entry at the exact axis pair is replaced. -/
def setProperty (st : ProjectState) (styleName p : String) (v : SetVal)
    (b : Breakpoint) (ps : Pseudo) : ProjectState × Option StoreError :=
  if p ∉ knownProps then (st, some .unknownProperty)
  else
    match st.findStyle styleName with
    | Option.none => (st, some .notFound)
    | some _ =>
      (⟨st.collections,
        st.styles.map (fun t =>
          if t.name == styleName then
            { t with props := ((b, ps, p), v)
                :: t.props.filter (fun e => !(e.1 == (b, ps, p))) }
          else t)⟩,
        Option.none)

/-- Replace the entry a variable stores for mode `m`. -/
def Variable.setEntry (v : Variable) (m : String) (e : VarEntry) : Variable :=
  { v with values := (m, e) :: v.values.filter (fun kv => !(kv.1 == m)) }

/-- Apply an update to the variable `vid` wherever it lives. -/
def updateVariable (st : ProjectState) (vid : String)
    (f : Variable → Variable) : ProjectState :=
  ⟨st.collections.map (fun c =>
      { c with vars := c.vars.map (fun v => if v.id == vid then f v else v) }),
    st.styles⟩

/-- Modelled from the spec: `setValue(variable, value|alias, mode?)`
(spec §4.1).  Fails with `TypeMismatch` when the supplied value's type (or
the referenced variable's type) differs from the variable's declared type;
an alias to a missing variable fails with `NotFound`; `CustomValue` is the
untyped escape hatch.  An omitted mode targets the default mode. -/
def setValue (st : ProjectState) (vid : String) (e : VarEntry)
    (mode : Option String) : ProjectState × Option StoreError :=
  match st.findVariable vid with
  | Option.none => (st, some .notFound)
  | some v =>
    match e with
    | .val c =>
      if c.vtype == v.vtype then
        (updateVariable st vid
          (fun w => w.setEntry (mode.getD v.defaultMode) e), Option.none)
      else (st, some .typeMismatch)
    | .ref tgt =>
      match st.findVariable tgt with
      | Option.none => (st, some .notFound)
      | some w =>
        if w.vtype == v.vtype then
          (updateVariable st vid
            (fun u => u.setEntry (mode.getD v.defaultMode) e), Option.none)
        else (st, some .typeMismatch)
    | .custom _ =>
      (updateVariable st vid
        (fun w => w.setEntry (mode.getD v.defaultMode) e), Option.none)

/-- Whether some style is a combo child of the named style. -/
def styleHasComboChildren (st : ProjectState) (name : String) : Bool :=
  st.styles.any (fun s => s.parent == some name)

/-- Modelled from the spec: style removal (spec §3 lifecycle, §7) — blocked
by `NotEmptyOrForced` while combo children depend on the style, unless
cascading removal is explicitly confirmed. -/
def removeStyle (st : ProjectState) (name : String) (force : Bool) :
    ProjectState × Option StoreError :=
  match st.findStyle name with
  | Option.none => (st, some .notFound)
  | some _ =>
    if !force && styleHasComboChildren st name then
      (st, some .notEmptyOrForced)
    else
      (⟨st.collections, st.styles.filter (fun s => !(s.name == name))⟩,
        Option.none)

/-- Modelled from the spec: variable removal (spec §4.1 `remove` for each
entity) — `NotFound` on a stale id, otherwise the variable is removed from
its collection. -/
def removeVariable (st : ProjectState) (vid : String) :
    ProjectState × Option StoreError :=
  match st.findVariable vid with
  | Option.none => (st, some .notFound)
  | some _ =>
    (⟨st.collections.map (fun c =>
        { c with vars := c.vars.filter (fun v => !(v.id == vid)) }),
      st.styles⟩,
      Option.none)

/-- C6: removing a collection that still has dependents fails with
`NotEmptyOrForced` unless cascading removal is explicitly confirmed.  In
particular a collection one of whose variables is still referenced by some
style cannot be removed without force, while a forced removal never reports
`NotEmptyOrForced`. -/
theorem removeCollection_requires_force (st : ProjectState) (cid : String) :
    (collectionHasDependents st cid = true →
      removeCollection st cid false = (st, some .notEmptyOrForced)) ∧
    (∀ c v s, st.findCollection cid = some c → v ∈ c.vars →
      s ∈ st.styles → styleUsesVar s v.id = true →
      removeCollection st cid false = (st, some .notEmptyOrForced)) ∧
    (removeCollection st cid true).2 ≠ some .notEmptyOrForced := by
  have hdep : collectionHasDependents st cid = true →
      removeCollection st cid false = (st, some .notEmptyOrForced) := by
    intro h
    unfold removeCollection
    cases hfc : st.findCollection cid with
    | none =>
      rw [collectionHasDependents, hfc] at h
      exact absurd h (by simp)
    | some c => simp [h]
  refine ⟨hdep, ?_, ?_⟩
  · intro c v s hfc hv hs huse
    apply hdep
    rw [collectionHasDependents, hfc]
    rw [List.any_eq_true]
    exact ⟨s, hs, List.any_eq_true.mpr ⟨v, hv, huse⟩⟩
  · unfold removeCollection
    cases hfc : st.findCollection cid with
    | none => simp
    | some c => simp

/-- The project state of the spec §8 scenario: collection `C` owns `bg`, and
style `S` references `bg` as the value of `background-color`. -/
def demoProject : ProjectState :=
  ⟨[⟨"C", ["base", "dark"], [demoBg]⟩],
    [⟨"S", Option.none,
      [((.main, .none, "background-color"), .val (.varRef "bg"))], []⟩]⟩

/-- Witness for C6: removing `C` while `S` still references `bg` fails with
`NotEmptyOrForced` without force and does not report it when forced. -/
theorem removeCollection_requires_force_witness :
    removeCollection demoProject "C" false
      = (demoProject, some .notEmptyOrForced) ∧
    (removeCollection demoProject "C" true).2 ≠ some .notEmptyOrForced := by
  constructor
  · exact (removeCollection_requires_force demoProject "C").1 (by decide)
  · exact (removeCollection_requires_force demoProject "C").2.2

/-- A style found by name is still found, unchanged, after appending new
styles at the end of the store. -/
theorem lookupStyle_append (styles extra : List Style) (name : String)
    (p : Style) (h : lookupStyle styles name = some p) :
    lookupStyle (styles ++ extra) name = some p := by
  induction styles with
  | nil => simp [lookupStyle] at h
  | cons s rest ih =>
    rw [lookupStyle, List.find?_cons] at h
    rw [lookupStyle, List.cons_append, List.find?_cons]
    cases hpa : (s.name == name) with
    | true => simp only [hpa, cond_true] at h ⊢; exact h
    | false =>
      simp only [hpa, cond_false] at h ⊢
      exact ih h

/-- The combo-depth-1 invariant of the Style Store: every combo class points
at an existing style that has no parent of its own. -/
def comboDepth1 (styles : List Style) : Bool :=
  styles.all (fun s =>
    match s.parent with
    | Option.none => true
    | some pid =>
      match lookupStyle styles pid with
      | some p => p.parent.isNone
      | Option.none => false)

/-- Appending a style whose parent (if any) is an existing parentless style
preserves the combo-depth-1 invariant. -/
theorem comboDepth1_append (styles : List Style) (new : Style)
    (hinv : comboDepth1 styles = true)
    (hnew : ∀ pid, new.parent = some pid →
      ∃ p, lookupStyle styles pid = some p ∧ p.parent = Option.none) :
    comboDepth1 (styles ++ [new]) = true := by
  unfold comboDepth1 at hinv ⊢
  rw [List.all_eq_true] at hinv ⊢
  intro s hs
  rcases List.mem_append.mp hs with hold | hnewmem
  · have hcond := hinv s hold
    cases hsp : s.parent with
    | none => simp [hsp]
    | some pid =>
      simp only [hsp] at hcond ⊢
      cases hl : lookupStyle styles pid with
      | none => rw [hl] at hcond; exact absurd hcond (by simp)
      | some p =>
        rw [hl] at hcond
        have hl' := lookupStyle_append styles [new] pid p hl
        rw [hl']
        exact hcond
  · rw [List.mem_singleton] at hnewmem
    subst hnewmem
    cases hsp : s.parent with
    | none => simp [hsp]
    | some pid =>
      obtain ⟨p, hl, hpn⟩ := hnew pid hsp
      have hl' := lookupStyle_append styles [s] pid p hl
      simp only [hsp, hl']
      simp [hpn]

/-- C7: creating a combo class succeeds only against a parent with no parent
of its own; a combo parent is rejected with `NestedComboNotSupported`; the
combo-depth-1 invariant is preserved by style creation; and under it every
existing combo's parent chain stops after exactly one hop (so it has no
cycles). -/
theorem createStyle_combo_depth1 (st : ProjectState) (name : String) :
    (∀ pid p, st.findStyle pid = some p → p.parent.isSome = true →
      createStyle st name (some pid) = (st, some .nestedComboNotSupported)) ∧
    (∀ pid, (createStyle st name (some pid)).2 = Option.none →
      ∃ p, st.findStyle pid = some p ∧ p.parent = Option.none) ∧
    (∀ par, comboDepth1 st.styles = true →
      comboDepth1 (createStyle st name par).1.styles = true) ∧
    (comboDepth1 st.styles = true →
      ∀ s ∈ st.styles, ∀ pid p, s.parent = some pid →
        lookupStyle st.styles pid = some p → p.parent = Option.none) := by
  refine ⟨?_, ?_, ?_, ?_⟩
  · intro pid p hf hps
    simp [createStyle, hf, hps]
  · intro pid hsucc
    simp only [createStyle] at hsucc
    cases hf : st.findStyle pid with
    | none => rw [hf] at hsucc; simp at hsucc
    | some p =>
      rw [hf] at hsucc
      cases hps : p.parent with
      | some q => simp [hps] at hsucc
      | none => exact ⟨p, rfl, hps⟩
  · intro par hinv
    cases par with
    | none =>
      have heq : createStyle st name Option.none
          = (⟨st.collections,
              st.styles ++ [⟨name, Option.none, [], []⟩]⟩, Option.none) :=
        rfl
      rw [heq]
      exact comboDepth1_append st.styles _ hinv (fun pid hpid =>
        absurd hpid (by simp))
    | some pid =>
      cases hf : st.findStyle pid with
      | none =>
        have heq : createStyle st name (some pid) = (st, some .notFound) := by
          simp [createStyle, hf]
        rw [heq]
        exact hinv
      | some p =>
        cases hps : p.parent with
        | some q =>
          have heq : createStyle st name (some pid)
              = (st, some .nestedComboNotSupported) := by
            simp [createStyle, hf, hps]
          rw [heq]
          exact hinv
        | none =>
          have heq : createStyle st name (some pid)
              = (⟨st.collections,
                  st.styles ++ [⟨name, some pid, [], []⟩]⟩, Option.none) := by
            simp [createStyle, hf, hps]
          rw [heq]
          exact comboDepth1_append st.styles _ hinv (fun pid' hpid' => by
            have hp' : some pid = some pid' := hpid'
            injection hp' with hp'
            subst hp'
            exact ⟨p, hf, hps⟩)
  · intro hinv s hs pid p hsp hl
    unfold comboDepth1 at hinv
    have hcond := List.all_eq_true.mp hinv s hs
    simp only [hsp, hl] at hcond
    simpa using hcond

/-- A project whose Style Store holds parent `A` and combo child `B`. -/
def comboProject : ProjectState := ⟨[], [styleA, styleBBlue]⟩

/-- Witness for C7: creating a combo on top of the combo `B` is rejected
with `NestedComboNotSupported`, while creating one on the parentless `A`
preserves the depth-1 invariant. -/
theorem createStyle_combo_depth1_witness :
    createStyle comboProject "C" (some "B")
      = (comboProject, some .nestedComboNotSupported) ∧
    comboDepth1 (createStyle comboProject "C" (some "A")).1.styles
      = true := by
  constructor
  · exact (createStyle_combo_depth1 comboProject "C").1 "B" styleBBlue
      (by decide) (by decide)
  · exact (createStyle_combo_depth1 comboProject "C").2.2.1 (some "A")
      (by decide)

/-- C8: every mutation operation is atomic with respect to failure — when
`setProperty`, `setValue`, `removeCollection`, `removeStyle` or
`removeVariable` reports a typed error, the returned state is exactly the
pre-call state (no partial write is observable, and the error itself is
reported rather than swallowed). -/
theorem mutations_atomic_on_failure (st : ProjectState) :
    (∀ sn p v b ps e, (setProperty st sn p v b ps).2 = some e →
      (setProperty st sn p v b ps).1 = st) ∧
    (∀ vid en mo e, (setValue st vid en mo).2 = some e →
      (setValue st vid en mo).1 = st) ∧
    (∀ cid f e, (removeCollection st cid f).2 = some e →
      (removeCollection st cid f).1 = st) ∧
    (∀ nm f e, (removeStyle st nm f).2 = some e →
      (removeStyle st nm f).1 = st) ∧
    (∀ vid e, (removeVariable st vid).2 = some e →
      (removeVariable st vid).1 = st) := by
  refine ⟨?_, ?_, ?_, ?_, ?_⟩
  · intro sn p v b ps e h
    by_cases hk : p ∈ knownProps
    · cases hf : st.findStyle sn with
      | none => simp [setProperty, hk, hf]
      | some s =>
        have h2 : (setProperty st sn p v b ps).2 = Option.none := by
          simp [setProperty, hk, hf]
        rw [h2] at h
        simp at h
    · simp [setProperty, hk]
  · intro vid en mo e h
    cases hv : st.findVariable vid with
    | none => simp [setValue, hv]
    | some v =>
      cases en with
      | val c =>
        cases ht : (c.vtype == v.vtype) with
        | true =>
          have h2 : (setValue st vid (.val c) mo).2 = Option.none := by
            simp [setValue, hv, ht]
          rw [h2] at h
          simp at h
        | false => simp [setValue, hv, ht]
      | ref tgt =>
        cases hw : st.findVariable tgt with
        | none => simp [setValue, hv, hw]
        | some w =>
          cases ht : (w.vtype == v.vtype) with
          | true =>
            have h2 : (setValue st vid (.ref tgt) mo).2 = Option.none := by
              simp [setValue, hv, hw, ht]
            rw [h2] at h
            simp at h
          | false => simp [setValue, hv, hw, ht]
      | custom s =>
        have h2 : (setValue st vid (.custom s) mo).2 = Option.none := by
          simp [setValue, hv]
        rw [h2] at h
        simp at h
  · intro cid f e h
    cases hc : st.findCollection cid with
    | none => simp [removeCollection, hc]
    | some c =>
      cases hd : (!f && collectionHasDependents st cid) with
      | true => simp [removeCollection, hc, hd]
      | false =>
        have h2 : (removeCollection st cid f).2 = Option.none := by
          simp [removeCollection, hc, hd]
        rw [h2] at h
        simp at h
  · intro nm f e h
    cases hs : st.findStyle nm with
    | none => simp [removeStyle, hs]
    | some s =>
      cases hd : (!f && styleHasComboChildren st nm) with
      | true => simp [removeStyle, hs, hd]
      | false =>
        have h2 : (removeStyle st nm f).2 = Option.none := by
          simp [removeStyle, hs, hd]
        rw [h2] at h
        simp at h
  · intro vid e h
    cases hv : st.findVariable vid with
    | none => simp [removeVariable, hv]
    | some v =>
      have h2 : (removeVariable st vid).2 = Option.none := by
        simp [removeVariable, hv]
      rw [h2] at h
      simp at h

/-- Witness for C8: a failing `setProperty` (unknown property) and a failing
`removeCollection` (dependents, no force) both leave the state untouched. -/
theorem mutations_atomic_on_failure_witness :
    (setProperty demoProject "S" "not-a-css-prop" (.val (.lit "x"))
      .main .none).1 = demoProject ∧
    (removeCollection demoProject "C" false).1 = demoProject := by
  constructor
  · exact (mutations_atomic_on_failure demoProject).1 "S" "not-a-css-prop"
      (.val (.lit "x")) .main .none .unknownProperty (by decide)
  · exact (mutations_atomic_on_failure demoProject).2.2.1 "C" false
      .notEmptyOrForced (by decide)

/-- The selected element as the submit handler sees it: the designer API's
`getSelectedElement` yields `null | AnyElement`, and elements expose a
boolean `textContent` capability flag (`builder-element.d.ts` line 6). -/
structure SelectedElement where
  textContent : Bool
deriving DecidableEq, Repr

/-- The observable actions the `lorem` submit handler can perform. -/
inductive HandlerAction where
  | preventDefault
  | setTextContent (s : String)
deriving DecidableEq, Repr

/-- The fixed Lorem-ipsum constant written by the handler
(source: `src/unnamed/part_000`, lines 14–15). -/
def loremText : String :=
  "Lorem ipsum dolor sit amet, consectetur adipiscing elit, sed do " ++
  "eiusmod tempor incididunt ut labore et dolore magna aliqua."

/-- The `onsubmit` handler of the form element with id `lorem`
(source: `src/unnamed/part_000`, lines 10–17): it prevents the default
submission, awaits the selected element, and writes the Lorem-ipsum constant
only when an element is selected and its `textContent` flag is truthy.  The
selected element is the handler's only input; the returned list is the
ordered trace of its effects. -/
def onSubmitLorem (selected : Option SelectedElement) : List HandlerAction :=
  HandlerAction.preventDefault ::
    (match selected with
    | some el =>
      if el.textContent then [HandlerAction.setTextContent loremText] else []
    | Option.none => [])

/-- C9: on every submit, the handler's first action is `preventDefault`; it
invokes `setTextContent` exactly when an element is selected and its
`textContent` flag is truthy; the written string is always the fixed
Lorem-ipsum constant; and with no usable selection the trace is
`preventDefault` alone. -/
theorem onSubmitLorem_behaviour (sel : Option SelectedElement) :
    (onSubmitLorem sel).head? = some .preventDefault ∧
    ((∃ s, HandlerAction.setTextContent s ∈ onSubmitLorem sel) ↔
      ∃ el, sel = some el ∧ el.textContent = true) ∧
    (∀ s, HandlerAction.setTextContent s ∈ onSubmitLorem sel →
      s = loremText) ∧
    ((∀ el, sel = some el → el.textContent = false) →
      onSubmitLorem sel = [.preventDefault]) := by
  refine ⟨rfl, ?_, ?_, ?_⟩
  · cases sel with
    | none => simp [onSubmitLorem]
    | some el =>
      cases hel : el.textContent with
      | true => simp [onSubmitLorem, hel]
      | false => simp [onSubmitLorem, hel]
  · intro s hs
    cases sel with
    | none => simp [onSubmitLorem] at hs
    | some el =>
      cases hel : el.textContent with
      | true =>
        rw [onSubmitLorem] at hs
        simp [hel] at hs
        exact hs
      | false =>
        rw [onSubmitLorem] at hs
        simp [hel] at hs
  · intro hno
    cases sel with
    | none => rfl
    | some el =>
      have := hno el rfl
      simp [onSubmitLorem, this]

/-- Witness for C9: a selected element with the `textContent` flag set gets
exactly the Lorem-ipsum constant; no selection performs no mutation. -/
theorem onSubmitLorem_behaviour_witness :
    (∀ s, HandlerAction.setTextContent s ∈ onSubmitLorem (some ⟨true⟩) →
      s = loremText) ∧
    onSubmitLorem Option.none = [.preventDefault] := by
  constructor
  · exact (onSubmitLorem_behaviour (some ⟨true⟩)).2.2.1
  · exact (onSubmitLorem_behaviour Option.none).2.2.2
      (fun el hel => by simp at hel)

/-- The return types the vendored declarations use for the operations the
claims inspect. -/
inductive DeclaredReturn where
  | promiseBoolean
  | promiseNull
  | promiseStyle
deriving DecidableEq, Repr

/-- A method signature as declared in the vendored `.d.ts` surface. -/
structure DeclaredMethod where
  owner : String
  method : String
  returns : DeclaredReturn
deriving DecidableEq, Repr

/-- The removal operations of the vendored variable interface, with their
declared result types: `ColorVariable.remove` (`styles.d.ts` line 280),
`SizeVariable.remove` (378), `NumberVariable.remove` (480),
`PercentageVariable.remove` (581), `FontFamilyVariable.remove` (678),
`VariableMode.remove` (826) and `removeVariableCollection`
(`api.d.ts` line 365) all return `Promise<boolean>`. -/
def removalDeclarations : List DeclaredMethod :=
  [⟨"ColorVariable", "remove", .promiseBoolean⟩,
   ⟨"SizeVariable", "remove", .promiseBoolean⟩,
   ⟨"NumberVariable", "remove", .promiseBoolean⟩,
   ⟨"PercentageVariable", "remove", .promiseBoolean⟩,
   ⟨"FontFamilyVariable", "remove", .promiseBoolean⟩,
   ⟨"VariableMode", "remove", .promiseBoolean⟩,
   ⟨"WebflowApi", "removeVariableCollection", .promiseBoolean⟩]

/-- C10: at the vendored variable interface, every removal of a variable, a
variable mode, or a variable collection reports its outcome as a Promise
resolving to a boolean success flag — never as a typed failure. -/
theorem removal_returns_boolean_flag (d : DeclaredMethod)
    (hd : d ∈ removalDeclarations) : d.returns = .promiseBoolean := by
  fin_cases hd <;> rfl

/-- Witness for C10 at the first removal declaration of the list. -/
theorem removal_returns_boolean_flag_witness :
    (⟨"ColorVariable", "remove", .promiseBoolean⟩ : DeclaredMethod).returns
      = .promiseBoolean :=
  removal_returns_boolean_flag ⟨"ColorVariable", "remove", .promiseBoolean⟩
    (by simp [removalDeclarations])
